import Mathlib

/-!
Verification of the superstore dashboard data-preparation pipeline.

The two scripts `hello.py` and `superstore_analysis.py` load a transaction
table, coerce `Order Date` to a date and `Sales` / `Profit` to numbers,
derive `Profit Margin = Profit / Sales` and `Absolute Profit = |Profit|`,
and build a per-category aggregate and a per-(time bucket, category)
aggregate.  We embed the pipeline shallowly: a table is a `List` of rows,
numeric cells are rationals, and the IEEE non-finite values that the
unguarded division produces at a zero denominator are modelled explicitly
(`PMVal.posInf`, `PMVal.negInf`, `PMVal.nan`), so that the NaN-skipping
`mean` aggregation of `pandas` can be embedded faithfully.
-/

namespace Superstore

/-- A calendar date, as produced by `pd.to_datetime` on an ISO string. -/
structure Date where
  year : Nat
  month : Nat
  day : Nat
deriving DecidableEq, Repr

/-- One transaction row after type coercion (`hello.py` lines 30-34,
`superstore_analysis.py` lines 16-17): the columns the pipeline reads. -/
structure Row where
  orderDate : Date
  sales : ℚ
  profit : ℚ
  category : String
  region : String
deriving DecidableEq, Repr

/-- Value of the `Profit Margin` column: a finite rational, or one of
the non-finite floats (+inf, -inf, NaN) that the unguarded division
`df["Profit"] / df["Sales"]` produces when `Sales` is zero. -/
inductive PMVal where
  | num (q : ℚ)
  | posInf
  | negInf
  | nan
deriving DecidableEq, Repr

/-- Whether a `Profit Margin` value is NaN (the `0 / 0` result), the one
non-finite value the `mean` aggregation skips. -/
def PMVal.isNan : PMVal → Bool
  | PMVal.nan => true
  | _ => false

/-- Whether a `Profit Margin` value is an ordinary finite number. -/
def PMVal.isFinite : PMVal → Bool
  | PMVal.num _ => true
  | _ => false

/-- Float division as the scripts use it: exact on a non-zero
denominator; at a zero denominator it follows IEEE: `+inf` for a
positive numerator, `-inf` for a negative one, NaN for `0 / 0`. -/
def divPM (p s : ℚ) : PMVal :=
  if s = 0 then
    if 0 < p then PMVal.posInf
    else if p < 0 then PMVal.negInf
    else PMVal.nan
  else PMVal.num (p / s)

/-- A transaction row with the two derived columns added
(`hello.py` lines 35-37). -/
structure DRow extends Row where
  profitMargin : PMVal
  absoluteProfit : ℚ
deriving DecidableEq, Repr

/-- Row-wise derivation: `Profit Margin = Profit / Sales` (no zero guard)
and `Absolute Profit = |Profit|`. -/
def deriveRow (r : Row) : DRow :=
  { toRow := r
    profitMargin := divPM r.profit r.sales
    absoluteProfit := |r.profit| }

/-- The derive step over the whole table: adds the two columns row-wise. -/
def derive (t : List Row) : List DRow :=
  t.map deriveRow

/-- Addition on `Profit Margin` values, following IEEE float addition:
infinities of the same sign absorb finite summands, opposite infinities
give NaN, and NaN absorbs everything. -/
def PMVal.add : PMVal → PMVal → PMVal
  | PMVal.num a, PMVal.num b => PMVal.num (a + b)
  | PMVal.nan, _ => PMVal.nan
  | _, PMVal.nan => PMVal.nan
  | PMVal.posInf, PMVal.negInf => PMVal.nan
  | PMVal.negInf, PMVal.posInf => PMVal.nan
  | PMVal.posInf, _ => PMVal.posInf
  | _, PMVal.posInf => PMVal.posInf
  | PMVal.negInf, _ => PMVal.negInf
  | _, PMVal.negInf => PMVal.negInf

/-- Sum of a column of `Profit Margin` values under IEEE addition. -/
def pmSum (l : List PMVal) : PMVal :=
  l.foldr PMVal.add (PMVal.num 0)

/-- Division of a `Profit Margin` value by a positive row count; a
non-finite numerator keeps its kind. -/
def PMVal.divNat : PMVal → Nat → PMVal
  | PMVal.num a, n => PMVal.num (a / (n : ℚ))
  | PMVal.posInf, _ => PMVal.posInf
  | PMVal.negInf, _ => PMVal.negInf
  | PMVal.nan, _ => PMVal.nan

/-- The `mean` aggregation `pandas` applies to the `Profit Margin`
column (default `skipna=True`): NaN entries are excluded from both the
sum and the count, infinities propagate, and an all-NaN (or empty)
group yields NaN. -/
def pmMean (l : List PMVal) : PMVal :=
  let kept := l.filter (fun v => ! v.isNan)
  if kept.length = 0 then PMVal.nan
  else (pmSum kept).divNat kept.length

/-- The distinct grouping keys of a table, as `groupby` computes them:
one key per distinct value present in the input. -/
def keysOf {α κ : Type} [DecidableEq κ] (key : α → κ) (t : List α) : List κ :=
  (t.map key).dedup

/-- The group of rows of `t` carrying grouping key `k`. -/
def groupRows {α κ : Type} [DecidableEq κ] (key : α → κ) (t : List α) (k : κ) :
    List α :=
  t.filter (fun x => decide (key x = k))

/-- One row of the category aggregate `category_metrics`
(`hello.py` lines 153-158): summed `Sales`, summed `Profit`,
mean `Profit Margin`, mean `Absolute Profit`. -/
structure CatAgg where
  category : String
  salesSum : ℚ
  profitSum : ℚ
  profitMarginMean : PMVal
  absoluteProfitMean : ℚ
deriving DecidableEq, Repr

/-- The aggregate row for one category: the `agg` dictionary applied to
the group of rows of that category. -/
def catAggOf (t : List DRow) (c : String) : CatAgg :=
  let g := groupRows (fun r => r.category) t c
  { category := c
    salesSum := (g.map (fun r => r.sales)).sum
    profitSum := (g.map (fun r => r.profit)).sum
    profitMarginMean := pmMean (g.map (fun r => r.profitMargin))
    absoluteProfitMean := (g.map (fun r => r.absoluteProfit)).sum / (g.length : ℚ) }

/-- `category_metrics = df.groupby("Category").agg({...})`: one aggregate
row per distinct `Category` value present in the input. -/
def category_metrics (t : List DRow) : List CatAgg :=
  (keysOf (fun r => r.category) t).map (catAggOf t)

/-- The calendar-month bucket that `pd.Grouper(key='Order Date', freq='M')`
assigns a date to (labelled by month-end; two dates land in the same
bucket iff they share year and month). -/
def monthBucket (d : Date) : Nat × Nat :=
  (d.year, d.month)

/-- Generic (bucket, category)-keyed sum of `Sales`: one row per key
present in the input, holding the summed `Sales` of its group. -/
def temporalAgg {κ : Type} [DecidableEq κ] (key : DRow → κ) (t : List DRow) :
    List (κ × ℚ) :=
  (keysOf key t).map (fun k => (k, ((groupRows key t k).map (fun r => r.sales)).sum))

/-- `hello.py` line 188: group by (month bucket of `Order Date`, `Category`),
sum `Sales`. -/
def temporal_data (t : List DRow) : List (((Nat × Nat) × String) × ℚ) :=
  temporalAgg (fun r => (monthBucket r.orderDate, r.category)) t

/-- `superstore_analysis.py` lines 158-160: group by (raw `Order Date`,
`Category`), sum `Sales`. -/
def analysisTemporal (t : List DRow) : List ((Date × String) × ℚ) :=
  temporalAgg (fun r => (r.orderDate, r.category)) t

/-! ## Raw input and type coercion

The scripts read a delimited table (`pd.read_csv` in one variant, the
`superstore` connector in the other) and coerce cells with
`pd.to_datetime` / `pd.to_numeric` (explicitly in `hello.py` lines 31-34,
via `read_csv` type inference plus `to_datetime` in
`superstore_analysis.py` lines 16-17).  We model the raw table as a
header plus rows of string cells, and the coercion as executable parsers
that fail (whole pass, not per row) on any unparseable cell. -/

/-- Parse a non-empty run of decimal digits, accumulating left to right;
fails on any non-digit character. -/
def parseNatAux : List Char → Nat → Option Nat
  | [], acc => some acc
  | c :: cs, acc =>
      if c.isDigit then parseNatAux cs (acc * 10 + (c.toNat - 48)) else none

/-- Parse a non-empty digit string as a natural number. -/
def parseNatStr (s : List Char) : Option Nat :=
  match s with
  | [] => none
  | _ => parseNatAux s 0

/-- Split a character list on a separator character; always returns at
least one (possibly empty) group. -/
def splitOnChar (sep : Char) : List Char → List (List Char)
  | [] => [[]]
  | c :: cs =>
      let rest := splitOnChar sep cs
      if c = sep then [] :: rest
      else
        match rest with
        | [] => [[c]]
        | g :: gs => (c :: g) :: gs

/-- Parse an unsigned decimal literal: an integer part and an optional
fractional part separated by a dot. -/
def parseUnsigned (body : List Char) : Option ℚ :=
  match splitOnChar '.' body with
  | [ip] => (parseNatStr ip).map (fun n => (n : ℚ))
  | [ip, fp] => do
      let i ← parseNatStr ip
      let f ← parseNatStr fp
      pure ((i : ℚ) + (f : ℚ) / ((10 : ℚ) ^ fp.length))
  | _ => none

/-- `pd.to_numeric` on one cell: an optional leading minus sign, an
integer part and an optional decimal fraction; anything else raises
(here: `none`). -/
def parseDecimal (s : String) : Option ℚ :=
  match s.data with
  | '-' :: rest => (parseUnsigned rest).map (fun q => -q)
  | cs => parseUnsigned cs

/-- `pd.to_datetime` on one cell: an ISO `YYYY-MM-DD` date with a valid
month and day; anything else raises (here: `none`). -/
def parseDate (s : String) : Option Date :=
  match splitOnChar '-' s.data with
  | [y, m, d] => do
      let yr ← parseNatStr y
      let mo ← parseNatStr m
      let dy ← parseNatStr d
      if 1 ≤ mo ∧ mo ≤ 12 ∧ 1 ≤ dy ∧ dy ≤ 31 then pure ⟨yr, mo, dy⟩ else none
  | _ => none

/-- The raw loaded table: a header naming the columns and one list of
string cells per transaction. -/
structure RawTable where
  header : List String
  rows : List (List String)

/-- Position of a named column in the header; `none` when the column is
missing (label lookup on a dataframe raises a `KeyError`). -/
def colIndex (h : List String) (name : String) : Option Nat :=
  h.findIdx? (fun x => x == name)

/-- Resolve the positions of the five columns the pipeline reads; `none`
when any expected column is missing. -/
def resolveColumns (tbl : RawTable) : Option (Nat × Nat × Nat × Nat × Nat) := do
  let iD ← colIndex tbl.header "Order Date"
  let iS ← colIndex tbl.header "Sales"
  let iP ← colIndex tbl.header "Profit"
  let iC ← colIndex tbl.header "Category"
  let iR ← colIndex tbl.header "Region"
  pure (iD, iS, iP, iC, iR)

/-- Coerce one raw row given the resolved column positions: parse the
date and the two numeric cells, keep the two string cells.  Fails if a
cell is absent or unparseable. -/
def coerceRow (iD iS iP iC iR : Nat) (cells : List String) : Option Row := do
  let ds ← cells.get? iD
  let d ← parseDate ds
  let ss ← cells.get? iS
  let s ← parseDecimal ss
  let ps ← cells.get? iP
  let p ← parseDecimal ps
  let c ← cells.get? iC
  let reg ← cells.get? iR
  pure ⟨d, s, p, c, reg⟩

/-- Coerce every raw row: the whole pass fails on the first bad cell,
with no per-row skip-and-continue. -/
def coerceAll (iD iS iP iC iR : Nat) : List (List String) → Option (List Row)
  | [] => some []
  | cells :: rest => do
      let r ← coerceRow iD iS iP iC iR cells
      let rs ← coerceAll iD iS iP iC iR rest
      pure (r :: rs)

/-- The whole preparation pass: resolve the columns, coerce every row,
then derive the two columns.  Any failure aborts the pass with a
propagated error. -/
def prepare (tbl : RawTable) : Except String (List DRow) :=
  match resolveColumns tbl with
  | none => Except.error "missing expected column"
  | some (iD, iS, iP, iC, iR) =>
      match coerceAll iD iS iP iC iR tbl.rows with
      | none => Except.error "type coercion failed"
      | some rows => Except.ok (derive rows)

/-- One rendered element of the dashboard. -/
inductive View where
  | chart (name : String)
  | tableView (rowCount : Nat)
deriving DecidableEq, Repr

/-- The dashboard build: the preparation pass runs in full before the
first chart call (`hello.py` lines 30-37 precede line 66), so a failed
pass renders nothing; a successful pass renders every chart and the
final raw-table display. -/
def dashboard (tbl : RawTable) : List View :=
  match prepare tbl with
  | Except.ok ds =>
      [View.chart "fig_sales", View.chart "fig_profit", View.chart "fig_category",
       View.chart "fig_sales_profit", View.chart "fig_region",
       View.chart "fig_category_performance", View.chart "fig_temporal",
       View.chart "fig_matrix", View.tableView ds.length]
  | Except.error _ => []

/-! ## Grouping lemmas -/

/-- Summing an indicator-like map over a duplicate-free key list picks
out the single matching key. -/
lemma sum_map_single {κ : Type} [DecidableEq κ] (ks : List κ) (a : κ) (c : ℚ)
    (hnd : ks.Nodup) (ha : a ∈ ks) :
    (ks.map (fun k => if k = a then c else 0)).sum = c := by
  induction ks with
  | nil => cases ha
  | cons k ks ih =>
    rcases List.nodup_cons.mp hnd with ⟨hk, hnd2⟩
    rcases List.mem_cons.mp ha with h | h
    · simp only [List.map_cons, List.sum_cons, if_pos h.symm]
      have hz : (ks.map (fun x => if x = a then c else 0)).sum = 0 := by
        apply List.sum_eq_zero
        intro x hx
        rcases List.mem_map.mp hx with ⟨y, hy, rfl⟩
        have hne : y ≠ a := fun e => hk ((e.trans h) ▸ hy)
        simp [hne]
      rw [hz, add_zero]
    · have hke : k ≠ a := fun e => hk (e ▸ h)
      simp only [List.map_cons, List.sum_cons, if_neg hke, zero_add]
      exact ih hnd2 h

/-- Partitioning a table by a key function and summing each group sums
the whole table: the heart of the groupby-sum aggregates. -/
lemma partition_sum {α κ : Type} [DecidableEq κ] (key : α → κ) (f : α → ℚ) :
    ∀ (t : List α) (ks : List κ), ks.Nodup → (∀ x ∈ t, key x ∈ ks) →
      (ks.map (fun k => ((t.filter fun x => decide (key x = k)).map f).sum)).sum
        = (t.map f).sum := by
  intro t
  induction t with
  | nil =>
    intro ks _ _
    simp
  | cons x xs ih =>
    intro ks hnd hmem
    have hx := hmem x (List.mem_cons_self x xs)
    have hxs : ∀ y ∈ xs, key y ∈ ks := fun y hy => hmem y (List.mem_cons_of_mem x hy)
    have hsplit : ∀ k ∈ ks,
        (((x :: xs).filter fun y => decide (key y = k)).map f).sum
          = (if k = key x then f x else 0)
            + ((xs.filter fun y => decide (key y = k)).map f).sum := by
      intro k _
      by_cases h : key x = k
      · subst h
        simp [List.filter_cons]
      · have h2 : k ≠ key x := fun e => h e.symm
        simp [List.filter_cons, h, h2]
    rw [List.map_congr_left hsplit, List.sum_map_add,
      sum_map_single ks (key x) (f x) hnd hx, ih ks hnd hxs]
    simp

/-- Every grouping key comes from at least one input row. -/
lemma keysOf_mem {α κ : Type} [DecidableEq κ] (key : α → κ) (t : List α)
    (k : κ) (hk : k ∈ keysOf key t) : ∃ x ∈ t, key x = k := by
  rcases List.mem_map.mp (List.mem_dedup.mp hk) with ⟨x, hx, he⟩
  exact ⟨x, hx, he⟩

/-- Every input row's key is among the grouping keys. -/
lemma mem_keysOf {α κ : Type} [DecidableEq κ] (key : α → κ) (t : List α)
    (x : α) (hx : x ∈ t) : key x ∈ keysOf key t :=
  List.mem_dedup.mpr (List.mem_map_of_mem key hx)

/-- The group sums of any keyed `Sales` aggregate add up to the total
`Sales` of the input table. -/
lemma temporalAgg_sum {κ : Type} [DecidableEq κ] (key : DRow → κ) (t : List DRow) :
    ((temporalAgg key t).map (fun p => p.2)).sum = (t.map (fun r => r.sales)).sum := by
  rw [temporalAgg, List.map_map]
  exact partition_sum key (fun r => r.sales) t (keysOf key t)
    (List.nodup_dedup _) (fun x hx => mem_keysOf key t x hx)

/-- The NaN-skipping mean of a one-element group whose single value is
non-finite is that value itself: an infinity survives the skip and the
division, and a lone NaN leaves an empty kept list, whose mean is NaN. -/
lemma pmMean_single_nonfinite (v : PMVal) (hv : v.isFinite = false) :
    pmMean [v] = v := by
  cases v with
  | num q => simp [PMVal.isFinite] at hv
  | posInf => rfl
  | negInf => rfl
  | nan => rfl

/-! ## Claims -/

/-- **C1**: for every row of the loaded transaction table, the derived
`Profit Margin` column equals `Profit / Sales` exactly whenever `Sales`
is non-zero, and is the undefined/infinite result of the unguarded
division when `Sales` is zero: non-finite, and equal to +inf, -inf or
NaN according to the sign of `Profit`. -/
theorem C1_profit_margin_per_row (t : List Row) (i : Nat) (r : Row)
    (h : t[i]? = some r) :
    ∃ d : DRow, (derive t)[i]? = some d ∧
      (r.sales ≠ 0 → d.profitMargin = PMVal.num (r.profit / r.sales)) ∧
      (r.sales = 0 → d.profitMargin.isFinite = false ∧
        d.profitMargin = (if 0 < r.profit then PMVal.posInf
          else if r.profit < 0 then PMVal.negInf else PMVal.nan)) := by
  refine ⟨deriveRow r, ?_, ?_, ?_⟩
  · rw [derive, List.getElem?_map, h]
    rfl
  · intro hs
    simp [deriveRow, divPM, hs]
  · intro hs
    constructor
    · simp only [deriveRow, divPM, if_pos hs]
      by_cases h1 : 0 < r.profit
      · simp [h1, PMVal.isFinite]
      · by_cases h2 : r.profit < 0 <;> simp [h1, h2, PMVal.isFinite]
    · simp [deriveRow, divPM, hs]

/-- Witness for C1: a concrete two-row table exercising both the
non-zero-`Sales` and the zero-`Sales` branches. -/
theorem C1_profit_margin_per_row_witness :
    (∃ d : DRow,
      (derive [⟨⟨2023, 1, 5⟩, 4, 1, "Tech", "West"⟩,
               ⟨⟨2023, 1, 6⟩, 0, 7, "Tech", "West"⟩])[0]? = some d ∧
      d.profitMargin = PMVal.num ((1 : ℚ) / 4)) ∧
    (∃ d : DRow,
      (derive [⟨⟨2023, 1, 5⟩, 4, 1, "Tech", "West"⟩,
               ⟨⟨2023, 1, 6⟩, 0, 7, "Tech", "West"⟩])[1]? = some d ∧
      d.profitMargin.isFinite = false ∧ d.profitMargin = PMVal.posInf) := by
  constructor
  · obtain ⟨d, hd, h1, _⟩ := C1_profit_margin_per_row
      [⟨⟨2023, 1, 5⟩, 4, 1, "Tech", "West"⟩, ⟨⟨2023, 1, 6⟩, 0, 7, "Tech", "West"⟩]
      0 ⟨⟨2023, 1, 5⟩, 4, 1, "Tech", "West"⟩ rfl
    exact ⟨d, hd, h1 (by norm_num)⟩
  · obtain ⟨d, hd, _, h2⟩ := C1_profit_margin_per_row
      [⟨⟨2023, 1, 5⟩, 4, 1, "Tech", "West"⟩, ⟨⟨2023, 1, 6⟩, 0, 7, "Tech", "West"⟩]
      1 ⟨⟨2023, 1, 6⟩, 0, 7, "Tech", "West"⟩ rfl
    refine ⟨d, hd, (h2 rfl).1, ?_⟩
    rw [(h2 rfl).2, if_pos (by norm_num : (0 : ℚ) < 7)]

/-- **C9**: for every row of the loaded transaction table, the derived
`Absolute Profit` column equals the absolute value of that row's
`Profit`, and is therefore non-negative. -/
theorem C9_absolute_profit (t : List Row) (i : Nat) (r : Row)
    (h : t[i]? = some r) :
    ∃ d : DRow, (derive t)[i]? = some d ∧
      d.absoluteProfit = |r.profit| ∧ 0 ≤ d.absoluteProfit := by
  refine ⟨deriveRow r, ?_, rfl, abs_nonneg _⟩
  rw [derive, List.getElem?_map, h]
  rfl

/-- Witness for C9 at a concrete row with negative profit. -/
theorem C9_absolute_profit_witness :
    ∃ d : DRow,
      (derive [⟨⟨2023, 2, 1⟩, 50, -10, "Office", "East"⟩])[0]? = some d ∧
      d.absoluteProfit = |(-10 : ℚ)| ∧ 0 ≤ d.absoluteProfit :=
  C9_absolute_profit [⟨⟨2023, 2, 1⟩, 50, -10, "Office", "East"⟩] 0
    ⟨⟨2023, 2, 1⟩, 50, -10, "Office", "East"⟩ rfl

/-- **C7**: the derive step adds the two columns row-wise, preserving
the input table's row count and row order; projecting the derived table
back onto the original columns recovers the input table unchanged, so
the original per-transaction data stays available downstream. -/
theorem C7_derive_frame (t : List Row) :
    (derive t).length = t.length ∧ (derive t).map DRow.toRow = t := by
  constructor
  · simp [derive]
  · rw [derive, List.map_map]
    have h : (DRow.toRow ∘ deriveRow) = fun r => r := rfl
    rw [h]
    exact List.map_id t

/-- **C5**: on a concrete input with two distinct order dates inside the
same calendar month and the same category, the month-end-bucketing
variant (`hello.py`) produces one temporal row while the raw-date
variant (`superstore_analysis.py`) produces two, so the two variants'
temporal-category aggregates differ. -/
theorem C5_bucketing_disagrees :
    (temporal_data (derive [⟨⟨2023, 1, 5⟩, 100, 20, "Tech", "West"⟩,
        ⟨⟨2023, 1, 20⟩, 50, -10, "Tech", "West"⟩])).length = 1 ∧
    (analysisTemporal (derive [⟨⟨2023, 1, 5⟩, 100, 20, "Tech", "West"⟩,
        ⟨⟨2023, 1, 20⟩, 50, -10, "Tech", "West"⟩])).length = 2 ∧
    (⟨2023, 1, 5⟩ : Date) ≠ ⟨2023, 1, 20⟩ ∧
    monthBucket ⟨2023, 1, 5⟩ = monthBucket ⟨2023, 1, 20⟩ ∧ (1 : Nat) ≠ 2 := by
  refine ⟨rfl, rfl, by decide, rfl, by decide⟩

/-- **C10**: the category aggregate is a partition homomorphism — the
per-category `Sales` sums add up to the total `Sales` of the input, and
likewise for `Profit`, for every input table. -/
theorem C10_aggregate_totals (t : List DRow) :
    ((category_metrics t).map (fun a => a.salesSum)).sum
        = (t.map (fun r => r.sales)).sum ∧
    ((category_metrics t).map (fun a => a.profitSum)).sum
        = (t.map (fun r => r.profit)).sum := by
  constructor
  · rw [category_metrics, List.map_map]
    exact partition_sum (fun r => r.category) (fun r => r.sales) t _
      (List.nodup_dedup _) (fun x hx => mem_keysOf _ t x hx)
  · rw [category_metrics, List.map_map]
    exact partition_sum (fun r => r.category) (fun r => r.profit) t _
      (List.nodup_dedup _) (fun x hx => mem_keysOf _ t x hx)

/-- **C2**: the category aggregate has exactly one row per distinct
`Category` value present in the input (its key column is precisely the
duplicate-free list of input categories), and in each output row the
`Sales` and `Profit` fields are the sums, and the `Profit Margin` field
the mean, of the per-row values of that category. -/
theorem C2_category_aggregate (t : List DRow) :
    ((category_metrics t).map (fun a => a.category)
        = (t.map (fun r => r.category)).dedup) ∧
    ((category_metrics t).map (fun a => a.category)).Nodup ∧
    ∀ a ∈ category_metrics t,
      a.salesSum = ((t.filter fun r => decide (r.category = a.category)).map
          (fun r => r.sales)).sum ∧
      a.profitSum = ((t.filter fun r => decide (r.category = a.category)).map
          (fun r => r.profit)).sum ∧
      a.profitMarginMean = pmMean
        ((t.filter fun r => decide (r.category = a.category)).map
          (fun r => r.profitMargin)) := by
  have hmapcat : (category_metrics t).map (fun a => a.category)
      = keysOf (fun r : DRow => r.category) t := by
    rw [category_metrics, List.map_map]
    exact List.map_id' _
  refine ⟨hmapcat, ?_, ?_⟩
  · rw [hmapcat]
    exact List.nodup_dedup _
  · intro a ha
    rcases List.mem_map.mp ha with ⟨k, _, rfl⟩
    exact ⟨rfl, rfl, rfl⟩

/-- The three-row end-to-end scenario table from the spec. -/
def sampleRows : List Row :=
  [⟨⟨2023, 1, 5⟩, 100, 20, "Tech", "West"⟩,
   ⟨⟨2023, 1, 20⟩, 50, -10, "Tech", "West"⟩,
   ⟨⟨2023, 2, 1⟩, 200, 40, "Office", "West"⟩]

/-- A table mixing a zero-`Sales`, zero-`Profit` row (NaN margin) with
a normal row in the same category: the NaN-skipping mean must be the
finite margin of the normal row. -/
def mixedRows : List Row :=
  [⟨⟨2023, 3, 1⟩, 0, 0, "Mixed", "West"⟩,
   ⟨⟨2023, 3, 2⟩, 2, 1, "Mixed", "West"⟩]

/-- Witness for C2 on the spec's scenario table (one row per category,
"Tech" sums as expected) and on a NaN-mixed category, whose mean
`Profit Margin` skips the NaN row and stays finite, as the `pandas`
`mean` does. -/
theorem C2_category_aggregate_witness :
    ((category_metrics (derive sampleRows)).map (fun a => a.category)
        = ["Tech", "Office"]) ∧
    (∃ a ∈ category_metrics (derive sampleRows),
      a.category = "Tech" ∧ a.salesSum = 150 ∧ a.profitSum = 10) ∧
    (∃ a ∈ category_metrics (derive mixedRows),
      a.category = "Mixed" ∧ a.profitMarginMean = PMVal.num ((1 : ℚ) / 2)) := by
  obtain ⟨h1, _, h3⟩ := C2_category_aggregate (derive sampleRows)
  refine ⟨?_, ?_, ?_⟩
  · rw [h1]
    rfl
  · have hkey : "Tech" ∈ keysOf (fun r : DRow => r.category) (derive sampleRows) := by
      decide
    have hm : catAggOf (derive sampleRows) "Tech"
        ∈ category_metrics (derive sampleRows) :=
      List.mem_map.mpr ⟨"Tech", hkey, rfl⟩
    obtain ⟨hs, hp, _⟩ := h3 _ hm
    refine ⟨catAggOf (derive sampleRows) "Tech", hm, rfl, ?_, ?_⟩
    · rw [hs]
      simp +decide [sampleRows, derive, deriveRow, catAggOf, List.filter]
      norm_num
    · rw [hp]
      simp +decide [sampleRows, derive, deriveRow, catAggOf, List.filter]
      norm_num
  · obtain ⟨_, _, h3m⟩ := C2_category_aggregate (derive mixedRows)
    have hkey : "Mixed" ∈ keysOf (fun r : DRow => r.category) (derive mixedRows) := by
      decide
    have hm : catAggOf (derive mixedRows) "Mixed"
        ∈ category_metrics (derive mixedRows) :=
      List.mem_map.mpr ⟨"Mixed", hkey, rfl⟩
    obtain ⟨_, _, hmn⟩ := h3m _ hm
    refine ⟨catAggOf (derive mixedRows) "Mixed", hm, rfl, ?_⟩
    rw [hmn]
    have hd1 : divPM 0 0 = PMVal.nan := by simp [divPM]
    have hd2 : divPM 1 2 = PMVal.num ((1 : ℚ) / 2) := by norm_num [divPM]
    simp +decide [mixedRows, derive, deriveRow, catAggOf, List.filter, hd1, hd2,
      pmMean, pmSum, PMVal.add, PMVal.divNat, PMVal.isNan]

/-- **C3**: each temporal-category aggregate (in both variants) contains
a row only for keys with at least one input transaction, and its group
sums add up to the total `Sales` of the input, so every input row's
`Sales` contributes to exactly one bucket/category sum. -/
theorem C3_temporal_partition (t : List DRow) :
    (∀ p ∈ temporal_data t,
      ∃ r ∈ t, (monthBucket r.orderDate, r.category) = p.1) ∧
    (((temporal_data t).map (fun p => p.2)).sum
        = (t.map (fun r => r.sales)).sum) ∧
    (∀ p ∈ analysisTemporal t,
      ∃ r ∈ t, (r.orderDate, r.category) = p.1) ∧
    (((analysisTemporal t).map (fun p => p.2)).sum
        = (t.map (fun r => r.sales)).sum) := by
  refine ⟨?_, temporalAgg_sum _ t, ?_, temporalAgg_sum _ t⟩
  · intro p hp
    unfold temporal_data temporalAgg at hp
    rcases List.mem_map.mp hp with ⟨k, hk, rfl⟩
    exact keysOf_mem _ t k hk
  · intro p hp
    unfold analysisTemporal temporalAgg at hp
    rcases List.mem_map.mp hp with ⟨k, hk, rfl⟩
    exact keysOf_mem _ t k hk

/-- Witness for C3 on the scenario table: the January "Tech" bucket is
backed by an input row, and the bucket sums add up to the table total. -/
theorem C3_temporal_partition_witness :
    (∃ r ∈ derive sampleRows,
      (monthBucket r.orderDate, r.category) = (((2023, 1) : Nat × Nat), "Tech")) ∧
    ((temporal_data (derive sampleRows)).map (fun p => p.2)).sum
        = ((derive sampleRows).map (fun r => r.sales)).sum := by
  obtain ⟨h1, h2, _, _⟩ := C3_temporal_partition (derive sampleRows)
  refine ⟨?_, h2⟩
  have hval : temporal_data (derive sampleRows)
      = [((((2023, 1) : Nat × Nat), "Tech"), (150 : ℚ)),
         ((((2023, 2) : Nat × Nat), "Office"), (200 : ℚ))] := by
    simp +decide [temporal_data, temporalAgg, keysOf, groupRows, derive, deriveRow,
      sampleRows, monthBucket, List.filter, List.dedup]
    norm_num
  have hp : ((((2023, 1) : Nat × Nat), "Tech"), (150 : ℚ))
      ∈ temporal_data (derive sampleRows) := by
    rw [hval]
    exact List.mem_cons_self _ _
  exact h1 _ hp

/-- **C8**: a category whose only row has zero `Sales` gets a
non-finite `Profit Margin` (infinite or NaN) from the unguarded
division, and the category aggregate (a total function, so the
aggregation cannot crash) still produces a row for it whose mean
`Profit Margin` equals — hence propagates — that non-finite value. -/
theorem C8_zero_sales_category (t : List Row) (c : String) (r : Row)
    (hf : t.filter (fun x => decide (x.category = c)) = [r])
    (hs : r.sales = 0) :
    (deriveRow r).profitMargin.isFinite = false ∧
    ∃ a ∈ category_metrics (derive t),
      a.category = c ∧ a.profitMarginMean = (deriveRow r).profitMargin := by
  have hnf : (deriveRow r).profitMargin.isFinite = false := by
    show (divPM r.profit r.sales).isFinite = false
    rw [divPM, if_pos hs]
    by_cases h1 : 0 < r.profit
    · simp [h1, PMVal.isFinite]
    · by_cases h2 : r.profit < 0 <;> simp [h1, h2, PMVal.isFinite]
  refine ⟨hnf, ?_⟩
  have hrmem : r ∈ t.filter (fun x => decide (x.category = c)) := by
    rw [hf]
    exact List.mem_cons_self r []
  have hr : r ∈ t ∧ r.category = c := by
    have h2 := List.mem_filter.mp hrmem
    exact ⟨h2.1, of_decide_eq_true h2.2⟩
  have hkey : c ∈ keysOf (fun d : DRow => d.category) (derive t) := by
    have hd : deriveRow r ∈ derive t := List.mem_map_of_mem deriveRow hr.1
    have h3 : r.category ∈ keysOf (fun d : DRow => d.category) (derive t) :=
      mem_keysOf (fun d : DRow => d.category) (derive t) (deriveRow r) hd
    exact hr.2 ▸ h3
  refine ⟨catAggOf (derive t) c, List.mem_map.mpr ⟨c, hkey, rfl⟩, rfl, ?_⟩
  have hcomp : ((fun x : DRow => decide (x.category = c)) ∘ deriveRow)
      = (fun x : Row => decide (x.category = c)) := rfl
  have hgroup : groupRows (fun d : DRow => d.category) (derive t) c
      = [deriveRow r] := by
    rw [groupRows, derive, List.filter_map, hcomp, hf]
    rfl
  show pmMean ((groupRows (fun d : DRow => d.category) (derive t) c).map
      (fun d => d.profitMargin)) = (deriveRow r).profitMargin
  rw [hgroup]
  exact pmMean_single_nonfinite _ hnf

/-- Witness for C8: a one-row table whose single "Furniture" row has
zero `Sales` and positive `Profit`, hence a +inf margin. -/
theorem C8_zero_sales_category_witness :
    (deriveRow ⟨⟨2024, 3, 1⟩, 0, 5, "Furniture", "South"⟩).profitMargin.isFinite
        = false ∧
    ∃ a ∈ category_metrics (derive [⟨⟨2024, 3, 1⟩, 0, 5, "Furniture", "South"⟩]),
      a.category = "Furniture" ∧
      a.profitMarginMean
        = (deriveRow ⟨⟨2024, 3, 1⟩, 0, 5, "Furniture", "South"⟩).profitMargin :=
  C8_zero_sales_category [⟨⟨2024, 3, 1⟩, 0, 5, "Furniture", "South"⟩] "Furniture"
    ⟨⟨2024, 3, 1⟩, 0, 5, "Furniture", "South"⟩ (by decide) rfl

/-- A single bad raw row makes the whole coercion fail: there is no
per-row skip-and-continue. -/
lemma coerceAll_none {iD iS iP iC iR : Nat} (rows : List (List String))
    (cells : List String) (hc : cells ∈ rows)
    (hbad : coerceRow iD iS iP iC iR cells = none) :
    coerceAll iD iS iP iC iR rows = none := by
  induction rows with
  | nil => cases hc
  | cons x xs ih =>
    rcases List.mem_cons.mp hc with h | h
    · rw [h] at hbad
      simp [coerceAll, hbad]
    · cases hx : coerceRow iD iS iP iC iR x with
      | none => simp [coerceAll, hx]
      | some r => simp [coerceAll, hx, ih h]

/-- Successful coercion keeps one output row per input row. -/
lemma coerceAll_length {iD iS iP iC iR : Nat} :
    ∀ (rows : List (List String)) (out : List Row),
      coerceAll iD iS iP iC iR rows = some out → out.length = rows.length := by
  intro rows
  induction rows with
  | nil =>
    intro out h
    simp only [coerceAll, Option.some.injEq] at h
    rw [← h]
    rfl
  | cons x xs ih =>
    intro out h
    cases hx : coerceRow iD iS iP iC iR x with
    | none => simp [coerceAll, hx] at h
    | some r =>
      cases hxs : coerceAll iD iS iP iC iR xs with
      | none => simp [coerceAll, hx, hxs] at h
      | some rs =>
        simp [coerceAll, hx, hxs] at h
        subst h
        simp [ih rs hxs]

/-- **C4**: the preparation pass parses `Order Date` into a date and
`Sales` / `Profit` into numbers before any derived column is computed:
every successful run factors as column resolution, then whole-table
coercion, then the derive step applied to the coerced rows. -/
theorem C4_coerce_before_derive (tbl : RawTable) (ds : List DRow)
    (h : prepare tbl = Except.ok ds) :
    ∃ idx : Nat × Nat × Nat × Nat × Nat, ∃ rows : List Row,
      resolveColumns tbl = some idx ∧
      coerceAll idx.1 idx.2.1 idx.2.2.1 idx.2.2.2.1 idx.2.2.2.2 tbl.rows
        = some rows ∧
      ds = derive rows := by
  unfold prepare at h
  cases hR : resolveColumns tbl with
  | none => exact Except.noConfusion (by simp only [hR] at h; exact h)
  | some idx =>
    obtain ⟨iD, iS, iP, iC, iR⟩ := idx
    simp only [hR] at h
    cases hC : coerceAll iD iS iP iC iR tbl.rows with
    | none => exact Except.noConfusion (by simp only [hC] at h; exact h)
    | some rows =>
      simp only [hC, Except.ok.injEq] at h
      exact ⟨(iD, iS, iP, iC, iR), rows, rfl, hC, h.symm⟩

/-- Witness for C4: a concrete well-formed one-row table. -/
theorem C4_coerce_before_derive_witness :
    ∃ idx : Nat × Nat × Nat × Nat × Nat, ∃ rows : List Row,
      resolveColumns ⟨["Order Date", "Sales", "Profit", "Category", "Region"],
        [["2023-01-05", "100", "20", "Tech", "West"]]⟩ = some idx ∧
      coerceAll idx.1 idx.2.1 idx.2.2.1 idx.2.2.2.1 idx.2.2.2.2
        [["2023-01-05", "100", "20", "Tech", "West"]] = some rows ∧
      derive [⟨⟨2023, 1, 5⟩, 100, 20, "Tech", "West"⟩] = derive rows :=
  C4_coerce_before_derive
    ⟨["Order Date", "Sales", "Profit", "Category", "Region"],
      [["2023-01-05", "100", "20", "Tech", "West"]]⟩
    (derive [⟨⟨2023, 1, 5⟩, 100, 20, "Tech", "West"⟩]) rfl

/-- **C6**: a missing expected column or an unparseable cell in any row
aborts the whole preparation pass with a propagated fatal error before
any chart is produced (the dashboard renders nothing), and a successful
pass keeps every input row — there is no per-row skip, retry, or
partially rendered dashboard. -/
theorem C6_fatal_errors (tbl : RawTable) :
    (resolveColumns tbl = none →
      prepare tbl = Except.error "missing expected column" ∧ dashboard tbl = []) ∧
    (∀ iD iS iP iC iR : Nat, resolveColumns tbl = some (iD, iS, iP, iC, iR) →
      ∀ cells ∈ tbl.rows, coerceRow iD iS iP iC iR cells = none →
        prepare tbl = Except.error "type coercion failed" ∧ dashboard tbl = []) ∧
    (∀ ds : List DRow, prepare tbl = Except.ok ds →
      ds.length = tbl.rows.length) := by
  refine ⟨?_, ?_, ?_⟩
  · intro h
    have hp : prepare tbl = Except.error "missing expected column" := by
      unfold prepare
      simp only [h]
    refine ⟨hp, ?_⟩
    unfold dashboard
    simp only [hp]
  · intro iD iS iP iC iR hR cells hc hbad
    have hp : prepare tbl = Except.error "type coercion failed" := by
      unfold prepare
      simp only [hR, coerceAll_none tbl.rows cells hc hbad]
    refine ⟨hp, ?_⟩
    unfold dashboard
    simp only [hp]
  · intro ds h
    unfold prepare at h
    cases hR : resolveColumns tbl with
    | none => exact Except.noConfusion (by simp only [hR] at h; exact h)
    | some idx =>
      obtain ⟨iD, iS, iP, iC, iR⟩ := idx
      simp only [hR] at h
      cases hC : coerceAll iD iS iP iC iR tbl.rows with
      | none => exact Except.noConfusion (by simp only [hC] at h; exact h)
      | some rows =>
        simp only [hC, Except.ok.injEq] at h
        rw [← h, derive, List.length_map]
        exact coerceAll_length tbl.rows rows hC

/-- Witness for C6: one table missing the `Category` column and one
table with a non-numeric `Sales` cell; both abort with an empty
dashboard. -/
theorem C6_fatal_errors_witness :
    (prepare ⟨["Order Date", "Sales", "Profit", "Region"], []⟩
        = Except.error "missing expected column" ∧
      dashboard ⟨["Order Date", "Sales", "Profit", "Region"], []⟩ = []) ∧
    (prepare ⟨["Order Date", "Sales", "Profit", "Category", "Region"],
        [["2023-01-05", "abc", "20", "Tech", "West"]]⟩
        = Except.error "type coercion failed" ∧
      dashboard ⟨["Order Date", "Sales", "Profit", "Category", "Region"],
        [["2023-01-05", "abc", "20", "Tech", "West"]]⟩ = []) := by
  constructor
  · exact (C6_fatal_errors ⟨["Order Date", "Sales", "Profit", "Region"], []⟩).1 rfl
  · exact (C6_fatal_errors ⟨["Order Date", "Sales", "Profit", "Category", "Region"],
      [["2023-01-05", "abc", "20", "Tech", "West"]]⟩).2.1 0 1 2 3 4 rfl
      ["2023-01-05", "abc", "20", "Tech", "West"] (List.mem_cons_self _ _) rfl

end Superstore
